import Mathlib

/-!
Shallow embedding of `src/lib/util/sbuff.c` (string buffer / cursor
primitives of a AAA server).  The buffer is a list of byte values
(`Nat`, each < 256 in practice); an `fr_sbuff_t` is modelled by the
underlying byte list together with the three pointer offsets
`start`, `p` (position) and `end` (here `ed`, since `end` is a Lean
keyword).  Pointer arithmetic becomes offset arithmetic; `size_t`
values are modelled as `Nat` (with the `size_t`/`ssize_t` wrap made
explicit where the C computes a signed return from unsigned
subtraction); output buffers are byte lists written functionally.
-/

/-- Cursor structure `fr_sbuff_t`: three pointers into one contiguous
buffer, modelled as offsets `start`, `p`, `ed` into `data` (`ed` models
the C field `end`, an exclusive upper bound). -/
structure Sbuff where
  data : List Nat
  start : Nat
  p : Nat
  ed : Nat
deriving DecidableEq, Repr

/-- Invariant of the cursor documented by the spec:
`start <= position <= end` (and the window lies inside the buffer). -/
def Sbuff.inv (s : Sbuff) : Prop :=
  s.start ≤ s.p ∧ s.p ≤ s.ed ∧ s.ed ≤ s.data.length

instance (s : Sbuff) : Decidable s.inv := by
  unfold Sbuff.inv; infer_instance

/-- Bytes of the window `[p, end)` the C functions scan: the C code reads
from pointer `in->p` with byte count `in->end - in->p`. -/
def Sbuff.remaining (s : Sbuff) : List Nat :=
  (s.data.drop s.p).take (s.ed - s.p)

/-- Value of `SIZE_MAX`, used by the copy family as the
"copy everything remaining" sentinel. -/
def SIZE_MAX : Nat := 2 ^ 64 - 1

/-- Conversion of a `size_t` value to `ssize_t` (two's-complement
reinterpretation), used where the C returns a signed value computed by
unsigned arithmetic. -/
def toSsize (n : Nat) : Int :=
  if n % 2 ^ 64 < 2 ^ 63 then ((n % 2 ^ 64 : Nat) : Int)
  else ((n % 2 ^ 64 : Nat) : Int) - 2 ^ 64

/-- Unsigned `size_t` subtraction `a - b` (wrapping mod `2^64`) whose
result the C converts to `ssize_t` on return. -/
def usubS (a b : Nat) : Int := toSsize ((2 ^ 64 + a - b) % 2 ^ 64)

/-- ASCII `isspace` (locale-independent): space and the five control
whitespace characters 9..13. -/
def isspaceB (c : Nat) : Bool := decide (c = 32 ∨ (9 ≤ c ∧ c ≤ 13))

/-- ASCII `isdigit`. -/
def isdigitB (c : Nat) : Bool := decide (48 ≤ c ∧ c ≤ 57)

/-- Model of libc `memchr(p, c, n)` on a byte list: offset of the first
occurrence of `c`, or `none`. -/
def memchr (l : List Nat) (c : Nat) : Option Nat :=
  match l with
  | [] => none
  | b :: t => if b = c then some 0 else (memchr t c).map (· + 1)

/-- Model of libc `memmem` (also used for the spec-modelled UTF-8 char
search): offset of the first occurrence of `needle` as a contiguous
sublist of `hay`, or `none`.  An empty needle matches at offset 0,
as glibc `memmem` returns the haystack itself. -/
def findSub (hay needle : List Nat) : Option Nat :=
  if needle.isPrefixOf hay then some 0
  else
    match hay with
    | [] => none
    | _ :: t => (findSub t needle).map (· + 1)

/-- Model of libc `strlen` on a byte list: bytes before the first NUL. -/
def cstrlen (l : List Nat) : Nat := (l.takeWhile (fun b => b != 0)).length

/-- Translation of `fr_sbuff_strchr` (sbuff.c lines 67-78): `memchr`
over `[p, end)`; on success wind `p` to the found byte and return the
offset from the pre-call position, on failure return 0 with `p`
untouched. -/
def fr_sbuff_strchr (s : Sbuff) (c : Nat) : Nat × Sbuff :=
  match memchr s.remaining c with
  | none => (0, s)
  | some i => (i, { s with p := s.p + i })

/-- Modelled from the spec: `fr_utf8_strchr` is declared in
`freeradius-devel/util/print.h` and its definition is not under `src/`;
per the spec it finds the first occurrence of a full (possibly
multi-byte) UTF-8 codepoint, i.e. of the codepoint's byte sequence,
within the window. -/
def fr_utf8_strchr (hay : List Nat) (chr : List Nat) : Option Nat :=
  findSub hay chr

/-- Translation of `fr_sbuff_strchr_utf8` (sbuff.c lines 46-57): search
the window for a multibyte char (the needle is the char's UTF-8 byte
sequence); same return contract as `fr_sbuff_strchr`. -/
def fr_sbuff_strchr_utf8 (s : Sbuff) (chr : List Nat) : Nat × Sbuff :=
  match fr_utf8_strchr s.remaining chr with
  | none => (0, s)
  | some i => (i, { s with p := s.p + i })

/-- Translation of `fr_sbuff_strstr` (sbuff.c lines 89-102): `memmem`
for `needle` (first `len` bytes; `len < 0` means use `strlen`) in the
window; same return contract as `fr_sbuff_strchr`. -/
def fr_sbuff_strstr (s : Sbuff) (needle : List Nat) (len : Int) : Nat × Sbuff :=
  let n := if len < 0 then cstrlen needle else len.toNat
  match findSub s.remaining (needle.take n) with
  | none => (0, s)
  | some i => (i, { s with p := s.p + i })

/-- Translation of `fr_sbuff_skip_whitespace` (sbuff.c lines 111-118):
advance `p` over the maximal run of `isspace` bytes below `end`,
returning the count skipped. -/
def fr_sbuff_skip_whitespace (s : Sbuff) : Nat × Sbuff :=
  let k := (s.remaining.takeWhile isspaceB).length
  (k, { s with p := s.p + k })

/-- Effective length: the first line shared by the copy functions,
`if (len == SIZE_MAX) len = in->end - in->p`. -/
def effLen (len : Nat) (s : Sbuff) : Nat :=
  if len = SIZE_MAX then s.ed - s.p else len

/-- Functional write of a copy result into a caller buffer:
`memcpy(out, in->p, n)` followed by `out[n] = 0` — the copied bytes,
the NUL terminator, then the untouched tail of `out`. -/
def writeOut (out : List Nat) (bs : List Nat) : List Nat :=
  bs ++ 0 :: out.drop (bs.length + 1)

/-- Translation of `fr_sbuff_strncpy_exact` (sbuff.c lines 133-149).
Returns the `ssize_t` result together with the output buffer and the
cursor after the call.  The two negative-return computations are done
in `size_t` in the C and converted to `ssize_t`, hence `usubS`. -/
def fr_sbuff_strncpy_exact (out : List Nat) (outlen : Nat) (s : Sbuff) (len : Nat) :
    Int × List Nat × Sbuff :=
  let len := effLen len s
  if outlen = 0 then (usubS 0 (len + 1), out, s)
  else
    let outlen := outlen - 1
    if len > outlen then (usubS outlen len, out, s)
    else if s.ed < s.p + len then (0, out, s)
    else ((len : Int), writeOut out ((s.data.drop s.p).take len), { s with p := s.p + len })

/-- Translation of the `STRNCPY_TRIM_LEN` macro (sbuff.c lines 151-156):
resolve the SIZE_MAX sentinel, trim to the (already decremented) output
capacity, then trim to the bytes remaining in the window. -/
def STRNCPY_TRIM_LEN (len : Nat) (s : Sbuff) (outlen : Nat) : Nat :=
  let len := effLen len s
  let len := if len > outlen then outlen else len
  if s.ed < s.p + len then s.ed - s.p else len

/-- Translation of `fr_sbuff_strncpy` (sbuff.c lines 170-184): the
best-effort copy.  Copies the trimmed count, terminates, advances. -/
def fr_sbuff_strncpy (out : List Nat) (outlen : Nat) (s : Sbuff) (len : Nat) :
    Nat × List Nat × Sbuff :=
  if outlen = 0 then (0, out, s)
  else
    let len := STRNCPY_TRIM_LEN len s (outlen - 1)
    (len, writeOut out ((s.data.drop s.p).take len), { s with p := s.p + len })

/-- Translation of `fr_sbuff_strncpy_allowed` (sbuff.c lines 201-224):
after trimming, copy bytes one at a time while each is a member of the
`allowed_chars` table (modelled as a byte predicate), then terminate,
advance by and return the copied count. -/
def fr_sbuff_strncpy_allowed (out : List Nat) (outlen : Nat) (s : Sbuff) (len : Nat)
    (allowed_chars : Nat → Bool) : Nat × List Nat × Sbuff :=
  if outlen = 0 then (0, out, s)
  else
    let len := STRNCPY_TRIM_LEN len s (outlen - 1)
    let copied := ((s.data.drop s.p).take len).takeWhile allowed_chars
    (copied.length, writeOut out copied, { s with p := s.p + copied.length })

/-- Translation of `fr_sbuff_strncpy_until` (sbuff.c lines 241-264):
mirror of the allowed-copy, copying while each byte is NOT a member of
the `until` stop table. -/
def fr_sbuff_strncpy_until (out : List Nat) (outlen : Nat) (s : Sbuff) (len : Nat)
    (untilTbl : Nat → Bool) : Nat × List Nat × Sbuff :=
  if outlen = 0 then (0, out, s)
  else
    let len := STRNCPY_TRIM_LEN len s (outlen - 1)
    let copied := ((s.data.drop s.p).take len).takeWhile (fun b => !untilTbl b)
    (copied.length, writeOut out copied, { s with p := s.p + copied.length })

/-- Value of `LLONG_MAX` on the target (64-bit `long long`). -/
def LLONG_MAX : Int := 2 ^ 63 - 1

/-- Value of `LLONG_MIN`. -/
def LLONG_MIN : Int := -(2 ^ 63)

/-- Value of `ULLONG_MAX`. -/
def ULLONG_MAX : Nat := 2 ^ 64 - 1

/-- Value of `errno` code `EINVAL` on Linux. -/
def EINVAL : Nat := 22

/-- Value of `errno` code `ERANGE` on Linux. -/
def ERANGE : Nat := 34

/-- Parse error enumeration `fr_sbuff_parse_error_t` from sbuff.h:
`NOT_FOUND` doubles as the "no error" sentinel (spec section 9). -/
inductive fr_sbuff_parse_error_t where
  | FR_SBUFF_PARSE_ERROR_NOT_FOUND
  | FR_SBUFF_PARSE_ERROR_INTEGER_OVERFLOW
  | FR_SBUFF_PARSE_ERROR_INTEGER_UNDERFLOW
deriving DecidableEq, Repr

/-- Decimal digit accumulation for the native parsers. -/
def digitsToNat (ds : List Nat) : Nat := ds.foldl (fun a d => a * 10 + (d - 48)) 0

/-- Result of the modelled `strtoll`: the (saturated) value, the offset
of `endptr` from the start of the buffer, and whether the call raised
`ERANGE`. -/
structure StrtollOut where
  num : Int
  endOff : Nat
  erange : Bool
deriving DecidableEq, Repr

/-- Result of the modelled `strtoull`. -/
structure StrtoullOut where
  num : Nat
  endOff : Nat
  erange : Bool
deriving DecidableEq, Repr

/-- Model of libc `strtoll(buff, &end, 10)` on a byte list (the C
string up to its terminator): skip `isspace` bytes, an optional sign,
then decimal digits; with no digits, `endptr` is the start (offset 0)
and the value 0; on magnitude outside `[LLONG_MIN, LLONG_MAX]` the
value saturates at the violated bound and `errno` is set to `ERANGE`.
The embedded NUL terminator needs no special case: byte 0 is neither
space, sign nor digit, so it stops the scan like any other byte. -/
def strtollM (bs : List Nat) : StrtollOut :=
  let ws := (bs.takeWhile isspaceB).length
  let rest := bs.drop ws
  let neg : Bool := rest.head? = some 45
  let hasSign : Bool := rest.head? = some 45 ∨ rest.head? = some 43
  let ds := (if hasSign then rest.drop 1 else rest).takeWhile isdigitB
  if ds.length = 0 then ⟨0, 0, false⟩
  else
    let m : Int := (digitsToNat ds : Nat)
    let v : Int := if neg then -m else m
    let consumed := ws + (if hasSign then 1 else 0) + ds.length
    if v > LLONG_MAX then ⟨LLONG_MAX, consumed, true⟩
    else if v < LLONG_MIN then ⟨LLONG_MIN, consumed, true⟩
    else ⟨v, consumed, false⟩

/-- Model of libc `strtoull(buff, &end, 10)`: as `strtollM`, but the
converted magnitude is range-checked against `ULLONG_MAX` (saturating
with `ERANGE`) and a leading minus negates the value in unsigned
arithmetic, i.e. modulo `2^64`, without a range error. -/
def strtoullM (bs : List Nat) : StrtoullOut :=
  let ws := (bs.takeWhile isspaceB).length
  let rest := bs.drop ws
  let neg : Bool := rest.head? = some 45
  let hasSign : Bool := rest.head? = some 45 ∨ rest.head? = some 43
  let ds := (if hasSign then rest.drop 1 else rest).takeWhile isdigitB
  if ds.length = 0 then ⟨0, 0, false⟩
  else
    let m := digitsToNat ds
    let consumed := ws + (if hasSign then 1 else 0) + ds.length
    if m > ULLONG_MAX then ⟨ULLONG_MAX, consumed, true⟩
    else ⟨if neg then (2 ^ 64 - m) % 2 ^ 64 else m, consumed, false⟩

/-- Modelled from the spec: the sbuff.h macro `FR_SBUFF_NO_ADVANCE`
(not under `src/`) yields a temporary copy of the sbuff, so that
advances performed through it never commit to the real cursor
("Peek — without committing the real cursor"). -/
def FR_SBUFF_NO_ADVANCE (s : Sbuff) : Sbuff := s

/-- Staging step shared by the parse macros:
`fr_sbuff_strncpy(buff, sizeof(buff), FR_SBUFF_NO_ADVANCE(in), sizeof(STRINGIFY(_bound)))`
with `bsz = sizeof(buff)` and the uninitialised local `buff` modelled
as zeros.  Returns the copied count and the buffer contents; the
advanced cursor copy is discarded exactly as the C discards the
compound-literal copy. -/
def stageBuff (bsz : Nat) (s : Sbuff) : Nat × List Nat :=
  let r := fr_sbuff_strncpy (List.replicate bsz 0) bsz (FR_SBUFF_NO_ADVANCE s) (bsz - 1)
  (r.1, r.2.1)

/-- Bytes of the staged C string handed to the native parser: the
copied span of the staging buffer (`strtoll` never scans past the
terminator the copy wrote at its end). -/
def stagedBytes (bsz : Nat) (s : Sbuff) : List Nat :=
  (stageBuff bsz s).2.take (stageBuff bsz s).1

/-- Observable outcome of a signed parse function: the `size_t` return,
the value written through `err` (`none` when nothing was written), the
value written through `out` (`none` when left untouched) and the
caller-visible cursor after the call. -/
structure SParseRes where
  ret : Nat
  err : Option fr_sbuff_parse_error_t
  out : Option Int
  sb : Sbuff
deriving DecidableEq, Repr

/-- Observable outcome of an unsigned parse function. -/
structure UParseRes where
  ret : Nat
  err : Option fr_sbuff_parse_error_t
  out : Option Nat
  sb : Sbuff
deriving DecidableEq, Repr

/-- Translation of the `PARSE_INT_DEF` macro body (sbuff.c lines
275-300), parametrised by the type bounds and the staging buffer size
`bsz = sizeof(STRINGIFY(_min)) + 1`.  `errp` says whether the caller
passed an `err` pointer; `e` is the ambient `errno` value on entry
(the code never clears it and `strtoll` sets it only on `ERANGE`).
The first `len == 0` write of `NOT_FOUND` is subsumed by the
`end == buff` branch, which always fires when the staged string is
empty and repeats the same write. -/
def parseIntDef (tmin tmax : Int) (bsz : Nat) (errp : Bool) (s : Sbuff) (e : Nat) :
    SParseRes :=
  let r := strtollM (stagedBytes bsz s)
  let errnoAfter := if r.erange then ERANGE else e
  if r.endOff = 0 then
    ⟨0, if errp then some .FR_SBUFF_PARSE_ERROR_NOT_FOUND else none, none, s⟩
  else if r.num > tmax ∨ (errnoAfter = EINVAL ∧ r.num = LLONG_MAX) then
    ⟨r.endOff, if errp then some .FR_SBUFF_PARSE_ERROR_INTEGER_OVERFLOW else none,
      some tmax, s⟩
  else if r.num < tmin ∨ (errnoAfter = EINVAL ∧ r.num = LLONG_MIN) then
    ⟨r.endOff, if errp then some .FR_SBUFF_PARSE_ERROR_INTEGER_UNDERFLOW else none,
      some tmin, s⟩
  else
    ⟨r.endOff, if errp then some .FR_SBUFF_PARSE_ERROR_NOT_FOUND else none,
      some r.num, s⟩

/-- Translation of the `PARSE_UINT_DEF` macro body (sbuff.c lines
312-334), parametrised by the type maximum and the staging buffer size
`bsz = sizeof(STRINGIFY(_max)) + 1`. -/
def parseUintDef (tmax : Nat) (bsz : Nat) (errp : Bool) (s : Sbuff) (e : Nat) :
    UParseRes :=
  let r := strtoullM (stagedBytes bsz s)
  let errnoAfter := if r.erange then ERANGE else e
  if r.endOff = 0 then
    ⟨0, if errp then some .FR_SBUFF_PARSE_ERROR_NOT_FOUND else none, none, s⟩
  else if r.num > tmax ∨ (errnoAfter = EINVAL ∧ r.num = ULLONG_MAX) then
    ⟨r.endOff, if errp then some .FR_SBUFF_PARSE_ERROR_INTEGER_OVERFLOW else none,
      some tmax, s⟩
  else
    ⟨r.endOff, if errp then some .FR_SBUFF_PARSE_ERROR_NOT_FOUND else none,
      some r.num, s⟩

/-- Instantiation `PARSE_INT_DEF(int8_t, INT8_MIN, INT8_MAX)`:
`sizeof(STRINGIFY(INT8_MIN)) = sizeof("(-128)") = 7` (glibc macro
text), so the staging buffer holds 8 bytes. -/
def fr_sbuff_parse_int8_t (errp : Bool) (s : Sbuff) (e : Nat) : SParseRes :=
  parseIntDef (-128) 127 8 errp s e

/-- Instantiation `PARSE_INT_DEF(int16_t, INT16_MIN, INT16_MAX)`:
staging buffer `sizeof("(-32768)") + 1 = 10`. -/
def fr_sbuff_parse_int16_t (errp : Bool) (s : Sbuff) (e : Nat) : SParseRes :=
  parseIntDef (-32768) 32767 10 errp s e

/-- Instantiation `PARSE_INT_DEF(int32_t, INT32_MIN, INT32_MAX)`:
staging buffer `sizeof("(-2147483647-1)") + 1 = 17`. -/
def fr_sbuff_parse_int32_t (errp : Bool) (s : Sbuff) (e : Nat) : SParseRes :=
  parseIntDef (-2147483648) 2147483647 17 errp s e

/-- Instantiation `PARSE_INT_DEF(int64_t, INT64_MIN, INT64_MAX)`:
staging buffer `sizeof("(-9223372036854775807L-1)") + 1 = 27`. -/
def fr_sbuff_parse_int64_t (errp : Bool) (s : Sbuff) (e : Nat) : SParseRes :=
  parseIntDef (-(2 ^ 63)) (2 ^ 63 - 1) 27 errp s e

/-- Instantiation `PARSE_UINT_DEF(uint8_t, UINT8_MAX)`:
staging buffer `sizeof("(255)") + 1 = 7`. -/
def fr_sbuff_parse_uint8_t (errp : Bool) (s : Sbuff) (e : Nat) : UParseRes :=
  parseUintDef 255 7 errp s e

/-- Instantiation `PARSE_UINT_DEF(uint16_t, UINT16_MAX)`:
staging buffer `sizeof("(65535)") + 1 = 9`. -/
def fr_sbuff_parse_uint16_t (errp : Bool) (s : Sbuff) (e : Nat) : UParseRes :=
  parseUintDef 65535 9 errp s e

/-- Instantiation `PARSE_UINT_DEF(uint32_t, UINT32_MAX)`:
staging buffer `sizeof("(4294967295U)") + 1 = 15`. -/
def fr_sbuff_parse_uint32_t (errp : Bool) (s : Sbuff) (e : Nat) : UParseRes :=
  parseUintDef 4294967295 15 errp s e

/-- Instantiation `PARSE_UINT_DEF(uint64_t, UINT64_MAX)`:
staging buffer `sizeof("(18446744073709551615UL)") + 1 = 26`. -/
def fr_sbuff_parse_uint64_t (errp : Bool) (s : Sbuff) (e : Nat) : UParseRes :=
  parseUintDef (2 ^ 64 - 1) 26 errp s e

/-! Helper lemmas -/

theorem usubS_eq_sub (a b : Nat) (hab : a < b) (hb : b ≤ 2 ^ 64) (h : b - a ≤ 2 ^ 63) :
    usubS a b = (a : Int) - (b : Int) := by
  unfold usubS toSsize
  have h1 : 2 ^ 64 + a - b = 2 ^ 64 - (b - a) := by omega
  have h2 : 2 ^ 64 - (b - a) < 2 ^ 64 := by omega
  rw [h1, Nat.mod_eq_of_lt h2, Nat.mod_eq_of_lt h2]
  have h3 : ¬ (2 ^ 64 - (b - a) < 2 ^ 63) := by omega
  rw [if_neg h3]
  have : ((2 ^ 64 - (b - a) : Nat) : Int) = 2 ^ 64 - ((b : Int) - a) := by
    push_cast
    omega
  omega

theorem append_cons_get (bs : List Nat) (c : Nat) (t : List Nat) :
    (bs ++ c :: t)[bs.length]? = some c := by
  rw [List.getElem?_append_right (Nat.le_refl _)]
  simp

theorem writeOut_term (out bs : List Nat) : (writeOut out bs)[bs.length]? = some 0 :=
  append_cons_get bs 0 (out.drop (bs.length + 1))

theorem writeOut_take (out bs : List Nat) : (writeOut out bs).take bs.length = bs := by
  unfold writeOut
  exact List.take_left bs _

theorem memchr_found (l : List Nat) (c : Nat) (i : Nat) (h : memchr l c = some i) :
    l[i]? = some c ∧ ∀ j, j < i → l[j]? ≠ some c := by
  induction l generalizing i with
  | nil => simp [memchr] at h
  | cons b t ih =>
    by_cases hb : b = c
    · simp [memchr, hb] at h
      subst h hb
      exact ⟨by simp, by omega⟩
    · simp [memchr, hb] at h
      obtain ⟨j, hj, rfl⟩ := h
      obtain ⟨h1, h2⟩ := ih j hj
      refine ⟨by simpa using h1, ?_⟩
      intro k hk
      cases k with
      | zero => simpa using hb
      | succ k => simpa using h2 k (by omega)

theorem memchr_not_found (l : List Nat) (c : Nat) (h : memchr l c = none) : c ∉ l := by
  induction l with
  | nil => simp
  | cons b t ih =>
    by_cases hb : b = c
    · simp [memchr, hb] at h
    · cases hm : memchr t c with
      | some j => simp [memchr, hb, hm] at h
      | none => simpa [hb, Ne.symm hb] using ih hm

theorem memchr_of_mem (l : List Nat) (c : Nat) (h : c ∈ l) : ∃ i, memchr l c = some i := by
  cases hm : memchr l c with
  | none => exact absurd h (memchr_not_found l c hm)
  | some i => exact ⟨i, rfl⟩

theorem memchr_lt_length (l : List Nat) (c : Nat) (i : Nat) (h : memchr l c = some i) :
    i < l.length := by
  have := (memchr_found l c i h).1
  by_contra hc
  rw [List.getElem?_eq_none (by omega)] at this
  cases this

theorem findSub_le_length (hay needle : List Nat) (i : Nat) (h : findSub hay needle = some i) :
    i ≤ hay.length := by
  induction hay generalizing i with
  | nil =>
    unfold findSub at h
    by_cases hp : needle.isPrefixOf ([] : List Nat) <;> simp [hp] at h
    omega
  | cons b t ih =>
    unfold findSub at h
    by_cases hp : needle.isPrefixOf (b :: t)
    · simp [hp] at h; omega
    · simp [hp] at h
      obtain ⟨j, hj, rfl⟩ := h
      have := ih j hj
      simp; omega

theorem takeWhile_length_le (q : Nat → Bool) (l : List Nat) :
    (l.takeWhile q).length ≤ l.length := by
  induction l with
  | nil => simp
  | cons b t ih =>
    by_cases h : q b
    all_goals simp [List.takeWhile, h]
    omega

theorem takeWhile_stop (q : Nat → Bool) (l : List Nat) (b : Nat)
    (h : l[(l.takeWhile q).length]? = some b) : q b = false := by
  induction l with
  | nil => simp at h
  | cons a t ih =>
    by_cases ha : q a
    · simp only [List.takeWhile, ha, List.length_cons, List.getElem?_cons_succ] at h
      exact ih h
    · simp only [List.takeWhile, ha] at h
      simp only [List.length_nil, List.getElem?_cons_zero] at h
      cases h
      exact eq_false_of_ne_true (by simpa using ha)

theorem remaining_length (s : Sbuff) (h2 : s.ed ≤ s.data.length) :
    s.remaining.length = s.ed - s.p := by
  unfold Sbuff.remaining
  simp
  omega

theorem trim_eq (len : Nat) (s : Sbuff) (k : Nat) (h : s.p ≤ s.ed) :
    STRNCPY_TRIM_LEN len s k = min (effLen len s) (min k (s.ed - s.p)) := by
  unfold STRNCPY_TRIM_LEN
  by_cases h1 : effLen len s > k
  all_goals simp only [h1, if_true, if_false]
  all_goals split
  all_goals omega

theorem parseIntDef_sb (tmin tmax : Int) (bsz : Nat) (errp : Bool) (s : Sbuff) (e : Nat) :
    (parseIntDef tmin tmax bsz errp s e).sb = s := by
  simp only [parseIntDef, apply_ite SParseRes.sb, ite_self]

theorem parseUintDef_sb (tmax bsz : Nat) (errp : Bool) (s : Sbuff) (e : Nat) :
    (parseUintDef tmax bsz errp s e).sb = s := by
  simp only [parseUintDef, apply_ite UParseRes.sb, ite_self]

theorem remaining_le_sub (s : Sbuff) : s.remaining.length ≤ s.ed - s.p := by
  unfold Sbuff.remaining
  simp

theorem trim_le_sub (len : Nat) (s : Sbuff) (k : Nat) (h : s.p ≤ s.ed) :
    STRNCPY_TRIM_LEN len s k ≤ s.ed - s.p := by
  rw [trim_eq len s k h]
  omega

/-- Claim C1: every operation of the core (the three searches, the
whitespace skip, the four copies and the eight numeric parses) maps a
cursor satisfying `start <= p <= end` to a cursor satisfying it again:
`p` is never moved past `end` nor before `start`. -/
theorem sbuff_ops_preserve_inv (s : Sbuff) (h : s.inv) :
    (∀ c, (fr_sbuff_strchr s c).2.inv)
    ∧ (∀ chr, (fr_sbuff_strchr_utf8 s chr).2.inv)
    ∧ (∀ needle len, (fr_sbuff_strstr s needle len).2.inv)
    ∧ (fr_sbuff_skip_whitespace s).2.inv
    ∧ (∀ out outlen len, (fr_sbuff_strncpy_exact out outlen s len).2.2.inv)
    ∧ (∀ out outlen len, (fr_sbuff_strncpy out outlen s len).2.2.inv)
    ∧ (∀ out outlen len tbl, (fr_sbuff_strncpy_allowed out outlen s len tbl).2.2.inv)
    ∧ (∀ out outlen len tbl, (fr_sbuff_strncpy_until out outlen s len tbl).2.2.inv)
    ∧ (∀ errp e, (fr_sbuff_parse_int8_t errp s e).sb.inv)
    ∧ (∀ errp e, (fr_sbuff_parse_int16_t errp s e).sb.inv)
    ∧ (∀ errp e, (fr_sbuff_parse_int32_t errp s e).sb.inv)
    ∧ (∀ errp e, (fr_sbuff_parse_int64_t errp s e).sb.inv)
    ∧ (∀ errp e, (fr_sbuff_parse_uint8_t errp s e).sb.inv)
    ∧ (∀ errp e, (fr_sbuff_parse_uint16_t errp s e).sb.inv)
    ∧ (∀ errp e, (fr_sbuff_parse_uint32_t errp s e).sb.inv)
    ∧ (∀ errp e, (fr_sbuff_parse_uint64_t errp s e).sb.inv) := by
  obtain ⟨hsp, hpe, hel⟩ := h
  have hrem := remaining_le_sub s
  refine ⟨?_, ?_, ?_, ?_, ?_, ?_, ?_, ?_, ?_, ?_, ?_, ?_, ?_, ?_, ?_, ?_⟩
  · intro c
    unfold fr_sbuff_strchr
    cases hm : memchr s.remaining c with
    | none => simpa only [hm] using ⟨hsp, hpe, hel⟩
    | some i =>
      simp only [hm]
      have hi := memchr_lt_length _ _ _ hm
      exact ⟨show s.start ≤ s.p + i by omega, show s.p + i ≤ s.ed by omega, hel⟩
  · intro chr
    unfold fr_sbuff_strchr_utf8 fr_utf8_strchr
    cases hm : findSub s.remaining chr with
    | none => simpa only [hm] using ⟨hsp, hpe, hel⟩
    | some i =>
      simp only [hm]
      have hi := findSub_le_length _ _ _ hm
      exact ⟨show s.start ≤ s.p + i by omega, show s.p + i ≤ s.ed by omega, hel⟩
  · intro needle len
    simp only [fr_sbuff_strstr]
    cases hm : findSub s.remaining (needle.take (if len < 0 then cstrlen needle else len.toNat)) with
    | none => simpa only [hm] using ⟨hsp, hpe, hel⟩
    | some i =>
      simp only [hm]
      have hi := findSub_le_length _ _ _ hm
      exact ⟨show s.start ≤ s.p + i by omega, show s.p + i ≤ s.ed by omega, hel⟩
  · simp only [fr_sbuff_skip_whitespace]
    have hk := takeWhile_length_le isspaceB s.remaining
    exact ⟨show s.start ≤ s.p + (s.remaining.takeWhile isspaceB).length by omega,
      show s.p + (s.remaining.takeWhile isspaceB).length ≤ s.ed by omega, hel⟩
  · intro out outlen len
    simp only [fr_sbuff_strncpy_exact]
    split
    · exact ⟨hsp, hpe, hel⟩
    · split
      · exact ⟨hsp, hpe, hel⟩
      · split
        next hlt => exact ⟨hsp, hpe, hel⟩
        next hlt =>
          exact ⟨show s.start ≤ s.p + effLen len s by omega,
            show s.p + effLen len s ≤ s.ed by omega, hel⟩
  · intro out outlen len
    simp only [fr_sbuff_strncpy]
    split
    · exact ⟨hsp, hpe, hel⟩
    · have ht := trim_le_sub len s (outlen - 1) hpe
      exact ⟨show s.start ≤ s.p + STRNCPY_TRIM_LEN len s (outlen - 1) by omega,
        show s.p + STRNCPY_TRIM_LEN len s (outlen - 1) ≤ s.ed by omega, hel⟩
  · intro out outlen len tbl
    simp only [fr_sbuff_strncpy_allowed]
    split
    · exact ⟨hsp, hpe, hel⟩
    · have h1 := takeWhile_length_le tbl ((s.data.drop s.p).take (STRNCPY_TRIM_LEN len s (outlen - 1)))
      have h2 := trim_le_sub len s (outlen - 1) hpe
      have h3 : ((s.data.drop s.p).take (STRNCPY_TRIM_LEN len s (outlen - 1))).length
          ≤ STRNCPY_TRIM_LEN len s (outlen - 1) := by simp
      refine ⟨show s.start ≤ s.p + _ by omega, show s.p + _ ≤ s.ed by omega, hel⟩
  · intro out outlen len tbl
    simp only [fr_sbuff_strncpy_until]
    split
    · exact ⟨hsp, hpe, hel⟩
    · have h1 := takeWhile_length_le (fun b => !tbl b)
        ((s.data.drop s.p).take (STRNCPY_TRIM_LEN len s (outlen - 1)))
      have h2 := trim_le_sub len s (outlen - 1) hpe
      have h3 : ((s.data.drop s.p).take (STRNCPY_TRIM_LEN len s (outlen - 1))).length
          ≤ STRNCPY_TRIM_LEN len s (outlen - 1) := by simp
      refine ⟨show s.start ≤ s.p + _ by omega, show s.p + _ ≤ s.ed by omega, hel⟩
  · intro errp e
    rw [fr_sbuff_parse_int8_t, parseIntDef_sb]
    exact ⟨hsp, hpe, hel⟩
  · intro errp e
    rw [fr_sbuff_parse_int16_t, parseIntDef_sb]
    exact ⟨hsp, hpe, hel⟩
  · intro errp e
    rw [fr_sbuff_parse_int32_t, parseIntDef_sb]
    exact ⟨hsp, hpe, hel⟩
  · intro errp e
    rw [fr_sbuff_parse_int64_t, parseIntDef_sb]
    exact ⟨hsp, hpe, hel⟩
  · intro errp e
    rw [fr_sbuff_parse_uint8_t, parseUintDef_sb]
    exact ⟨hsp, hpe, hel⟩
  · intro errp e
    rw [fr_sbuff_parse_uint16_t, parseUintDef_sb]
    exact ⟨hsp, hpe, hel⟩
  · intro errp e
    rw [fr_sbuff_parse_uint32_t, parseUintDef_sb]
    exact ⟨hsp, hpe, hel⟩
  · intro errp e
    rw [fr_sbuff_parse_uint64_t, parseUintDef_sb]
    exact ⟨hsp, hpe, hel⟩

theorem mem_of_getElemOpt (l : List Nat) (i a : Nat) (h : l[i]? = some a) : a ∈ l := by
  obtain ⟨hlt, rfl⟩ := List.getElem?_eq_some.mp h
  exact List.getElem_mem hlt

/-- Sample cursor over the buffer "abcXdef". -/
def sAbcXdef : Sbuff := ⟨[97, 98, 99, 88, 100, 101, 102], 0, 0, 7⟩

/-- Sample cursor over the buffer "hello". -/
def sHello : Sbuff := ⟨[104, 101, 108, 108, 111], 0, 0, 5⟩

/-- Sample cursor over the buffer "foo,bar". -/
def sFooBar : Sbuff := ⟨[102, 111, 111, 44, 98, 97, 114], 0, 0, 7⟩

/-- Sample cursor over the buffer "abc". -/
def sAbc : Sbuff := ⟨[97, 98, 99], 0, 0, 3⟩

/-- Claim C8: `find_char`: when the byte occurs in `[position, end)`
the function moves `position` to the first occurrence and returns the
offset from the pre-call position; when it does not occur, `position`
is unchanged and the return value is zero (hence a zero return also
legitimately occurs when the byte is found exactly at the current
position, the offset then being zero). -/
theorem fr_sbuff_strchr_spec (s : Sbuff) (c : Nat) :
    (c ∉ s.remaining → fr_sbuff_strchr s c = (0, s))
    ∧ (c ∈ s.remaining →
        s.remaining[(fr_sbuff_strchr s c).1]? = some c
        ∧ (∀ j, j < (fr_sbuff_strchr s c).1 → s.remaining[j]? ≠ some c)
        ∧ (fr_sbuff_strchr s c).2 = { s with p := s.p + (fr_sbuff_strchr s c).1 }) := by
  constructor
  · intro h
    unfold fr_sbuff_strchr
    cases hm : memchr s.remaining c with
    | none => rfl
    | some i =>
      exact absurd (mem_of_getElemOpt _ _ _ (memchr_found _ _ _ hm).1) h
  · intro h
    obtain ⟨i, hm⟩ := memchr_of_mem _ _ h
    have hf := memchr_found _ _ _ hm
    unfold fr_sbuff_strchr
    simp only [hm]
    exact ⟨hf.1, fun j hj => hf.2 j hj, by trivial⟩

/-- Witness for C8: over "abcXdef" searching the byte `X` (88), the
cursor is wound to offset 3 and the offset is returned; the spec's
example instance of the found case. -/
theorem fr_sbuff_strchr_spec_witness :
    sAbcXdef.remaining[(fr_sbuff_strchr sAbcXdef 88).1]? = some 88
    ∧ (∀ j, j < (fr_sbuff_strchr sAbcXdef 88).1 → sAbcXdef.remaining[j]? ≠ some 88)
    ∧ (fr_sbuff_strchr sAbcXdef 88).2
        = { sAbcXdef with p := sAbcXdef.p + (fr_sbuff_strchr sAbcXdef 88).1 } :=
  (fr_sbuff_strchr_spec sAbcXdef 88).2 (by decide)

/-- Witness for C1 at a concrete cursor mid-buffer. -/
theorem sbuff_ops_preserve_inv_witness :
    (fr_sbuff_strchr ⟨[97, 98, 99], 0, 1, 3⟩ 99).2.inv
    ∧ (fr_sbuff_parse_int8_t true ⟨[97, 98, 99], 0, 1, 3⟩ 0).sb.inv :=
  ⟨(sbuff_ops_preserve_inv ⟨[97, 98, 99], 0, 1, 3⟩ (by decide)).1 99,
   (sbuff_ops_preserve_inv ⟨[97, 98, 99], 0, 1, 3⟩ (by decide)).2.2.2.2.2.2.2.2.1 true 0⟩

theorem writeOut_take_len (out bs : List Nat) (n : Nat) (h : bs.length = n) :
    (writeOut out bs).take n = bs := by
  subst h
  exact writeOut_take out bs

theorem writeOut_term_len (out bs : List Nat) (n : Nat) (h : bs.length = n) :
    (writeOut out bs)[n]? = some 0 := by
  subst h
  exact writeOut_term out bs

/-- Counterexample to claim C2 as stated: for `outlen = 0` the claim
demands the return `-(length + 1)` for every `length`, but with the
representable `size_t` argument `length = 2^64 - 2` the C computes
`-(len + 1)` in `size_t`, which wraps to `1` after conversion to
`ssize_t`: the function returns `1`, not `-(2^64 - 1)`. -/
theorem fr_sbuff_strncpy_exact_c2_cex :
    (fr_sbuff_strncpy_exact [] 0 sAbc (2 ^ 64 - 2)).1 = 1
    ∧ (1 : Int) ≠ -((2 ^ 64 - 2 : Nat) + 1 : Int) := by
  constructor
  · decide
  · decide

/-- Claim C2 (amended): the three-way signed contract of `copy_exact`
holds verbatim provided the effective length (after substituting the
bytes-remaining count for the to-end sentinel) is below `2^63`, so that
the `size_t` arithmetic producing the negative returns cannot wrap:
with `outlen = 0` it returns `-(length+1)` leaving cursor and output
untouched; with `outlen` non-zero but too small it returns the negative
shortfall `(outlen - 1) - length` untouched; with fewer than `length`
bytes ahead of `position` it returns `0` untouched; otherwise it copies
exactly `length` bytes, null-terminates, advances `position` by
`length` and returns `length`. -/
theorem fr_sbuff_strncpy_exact_spec (out : List Nat) (outlen : Nat) (s : Sbuff) (len : Nat)
    (hs : s.inv) (hlen : effLen len s < 2 ^ 63) :
    (outlen = 0 →
      fr_sbuff_strncpy_exact out outlen s len = (-(effLen len s + 1 : Int), out, s))
    ∧ (0 < outlen → outlen - 1 < effLen len s →
        fr_sbuff_strncpy_exact out outlen s len
          = (((outlen - 1 : Nat) : Int) - (effLen len s : Int), out, s))
    ∧ (0 < outlen → effLen len s ≤ outlen - 1 → s.ed - s.p < effLen len s →
        fr_sbuff_strncpy_exact out outlen s len = (0, out, s))
    ∧ (0 < outlen → effLen len s ≤ outlen - 1 → effLen len s ≤ s.ed - s.p →
        (fr_sbuff_strncpy_exact out outlen s len).1 = (effLen len s : Int)
        ∧ (fr_sbuff_strncpy_exact out outlen s len).2.2 = { s with p := s.p + effLen len s }
        ∧ ((fr_sbuff_strncpy_exact out outlen s len).2.1).take (effLen len s)
            = (s.data.drop s.p).take (effLen len s)
        ∧ ((fr_sbuff_strncpy_exact out outlen s len).2.1)[effLen len s]? = some 0) := by
  obtain ⟨hsp, hpe, hel⟩ := hs
  refine ⟨?_, ?_, ?_, ?_⟩
  · intro h0
    subst h0
    simp only [fr_sbuff_strncpy_exact, if_true]
    rw [usubS_eq_sub 0 (effLen len s + 1) (by omega) (by omega) (by omega)]
    have hc : ((0 : Nat) : Int) - ((effLen len s + 1 : Nat) : Int)
        = -(effLen len s + 1 : Int) := by
      push_cast
      omega
    rw [hc]
  · intro h0 h1
    simp only [fr_sbuff_strncpy_exact, if_neg (by omega : ¬ outlen = 0)]
    rw [if_pos (show effLen len s > outlen - 1 from h1),
      usubS_eq_sub (outlen - 1) (effLen len s) h1 (by omega) (by omega)]
  · intro h0 h1 h2
    simp only [fr_sbuff_strncpy_exact, if_neg (by omega : ¬ outlen = 0)]
    rw [if_neg (by omega : ¬ effLen len s > outlen - 1),
      if_pos (by omega : s.ed < s.p + effLen len s)]
  · intro h0 h1 h2
    simp only [fr_sbuff_strncpy_exact, if_neg (by omega : ¬ outlen = 0)]
    rw [if_neg (by omega : ¬ effLen len s > outlen - 1),
      if_neg (by omega : ¬ s.ed < s.p + effLen len s)]
    have hbs : ((s.data.drop s.p).take (effLen len s)).length = effLen len s := by
      simp
      omega
    exact ⟨rfl, rfl, writeOut_take_len _ _ _ hbs, writeOut_term_len _ _ _ hbs⟩

/-- Witness for the amended C2 on the success path: remaining "hello",
`outlen = 6`, `length = 5` copies all five bytes, terminates, advances
by 5 and returns 5. -/
theorem fr_sbuff_strncpy_exact_spec_witness :
    (fr_sbuff_strncpy_exact [1, 1, 1, 1, 1, 1] 6 sHello 5).1 = (effLen 5 sHello : Int)
    ∧ (fr_sbuff_strncpy_exact [1, 1, 1, 1, 1, 1] 6 sHello 5).2.2
        = { sHello with p := sHello.p + effLen 5 sHello }
    ∧ ((fr_sbuff_strncpy_exact [1, 1, 1, 1, 1, 1] 6 sHello 5).2.1).take (effLen 5 sHello)
        = (sHello.data.drop sHello.p).take (effLen 5 sHello)
    ∧ ((fr_sbuff_strncpy_exact [1, 1, 1, 1, 1, 1] 6 sHello 5).2.1)[effLen 5 sHello]? = some 0 :=
  (fr_sbuff_strncpy_exact_spec [1, 1, 1, 1, 1, 1] 6 sHello 5 (by decide) (by decide)).2.2.2
    (by decide) (by decide) (by decide)

theorem remaining_advance (s : Sbuff) (n : Nat) :
    ({ s with p := s.p + n } : Sbuff).remaining = s.remaining.drop n := by
  unfold Sbuff.remaining
  rw [List.drop_take, List.drop_drop]
  have h1 : s.ed - s.p - n = s.ed - (s.p + n) := by omega
  rw [h1]

/-- Counterexample to claim C6 as stated: with `outlen = 0` the
best-effort copy returns before writing anything, so the output buffer
(here a single non-zero byte) receives no null terminator although the
claim asserts the function always null-terminates. -/
theorem fr_sbuff_strncpy_c6_cex :
    fr_sbuff_strncpy [65] 0 sAbc 1 = (0, [65], sAbc) ∧ (0 : Nat) ∉ ([65] : List Nat) := by
  constructor
  · decide
  · decide

/-- Claim C6 (amended): `copy_best_effort` copies exactly
`n = min(length, outlen - 1, bytes_remaining)` bytes (`length` taken as
`bytes_remaining` for the to-end sentinel), advances `position` by `n`
and returns `n`; `n` is legitimately zero when `outlen` is zero or
nothing remains, and no distinct error is ever reported (the count is
the only output).  It null-terminates whenever `outlen > 0`; when
`outlen = 0` nothing at all is written to the output buffer. -/
theorem fr_sbuff_strncpy_spec (out : List Nat) (outlen : Nat) (s : Sbuff) (len : Nat)
    (hs : s.inv) :
    (fr_sbuff_strncpy out outlen s len).1
        = min (effLen len s) (min (outlen - 1) (s.ed - s.p))
    ∧ (fr_sbuff_strncpy out outlen s len).2.2
        = { s with p := s.p + (fr_sbuff_strncpy out outlen s len).1 }
    ∧ (outlen = 0 → (fr_sbuff_strncpy out outlen s len).2.1 = out)
    ∧ (0 < outlen →
        ((fr_sbuff_strncpy out outlen s len).2.1).take (fr_sbuff_strncpy out outlen s len).1
          = (s.data.drop s.p).take (fr_sbuff_strncpy out outlen s len).1
        ∧ ((fr_sbuff_strncpy out outlen s len).2.1)[(fr_sbuff_strncpy out outlen s len).1]?
            = some 0
        ∧ (fr_sbuff_strncpy out outlen s len).1 < outlen) := by
  obtain ⟨hsp, hpe, hel⟩ := hs
  by_cases h0 : outlen = 0
  · subst h0
    simp only [fr_sbuff_strncpy, if_true]
    refine ⟨by omega, by trivial, by intros; trivial, fun hc => absurd hc (by omega)⟩
  · simp only [fr_sbuff_strncpy, if_neg h0]
    have htrim := trim_eq len s (outlen - 1) hpe
    have hle := trim_le_sub len s (outlen - 1) hpe
    have hbs : ((s.data.drop s.p).take (STRNCPY_TRIM_LEN len s (outlen - 1))).length
        = STRNCPY_TRIM_LEN len s (outlen - 1) := by
      simp
      omega
    refine ⟨htrim, by trivial, fun hc => absurd hc h0, fun _ => ?_⟩
    refine ⟨writeOut_take_len _ _ _ hbs, writeOut_term_len _ _ _ hbs, ?_⟩
    omega

/-- Witness for the amended C6: the spec example — remaining "hello"
(5 bytes), `outlen = 4`: copies and returns `min(5, 3, 5) = 3`,
null-terminating at index 3. -/
theorem fr_sbuff_strncpy_spec_witness :
    (fr_sbuff_strncpy [9, 9, 9, 9] 4 sHello 5).1
        = min (effLen 5 sHello) (min (4 - 1) (sHello.ed - sHello.p))
    ∧ (((fr_sbuff_strncpy [9, 9, 9, 9] 4 sHello 5).2.1).take
          (fr_sbuff_strncpy [9, 9, 9, 9] 4 sHello 5).1
        = (sHello.data.drop sHello.p).take (fr_sbuff_strncpy [9, 9, 9, 9] 4 sHello 5).1
      ∧ ((fr_sbuff_strncpy [9, 9, 9, 9] 4 sHello 5).2.1)[(fr_sbuff_strncpy [9, 9, 9, 9] 4 sHello 5).1]?
          = some 0
      ∧ (fr_sbuff_strncpy [9, 9, 9, 9] 4 sHello 5).1 < 4) :=
  ⟨(fr_sbuff_strncpy_spec [9, 9, 9, 9] 4 sHello 5 (by decide)).1,
   (fr_sbuff_strncpy_spec [9, 9, 9, 9] 4 sHello 5 (by decide)).2.2.2 (by decide)⟩

/-- Trimmed window of a filtered copy: the `len` bytes surviving
`STRNCPY_TRIM_LEN` (with the capacity already decremented for the
terminator), read from the current position. -/
def trimmedWindow (s : Sbuff) (outlen len : Nat) : List Nat :=
  (s.data.drop s.p).take (STRNCPY_TRIM_LEN len s (outlen - 1))

/-- Claim C7: `copy_allowed` copies bytes from the trimmed window one
at a time while each byte is a member of the allowed table, stopping at
the first non-member byte, which remains unconsumed (the consumed
suffix of the window starts exactly after the copied prefix);
`copy_until` is the exact mirror, copying while each byte is not a
member of the stop table and stopping at the first member byte; both
advance `position` by, and return, exactly the number of bytes actually
copied. -/
theorem fr_sbuff_strncpy_filtered_spec (out : List Nat) (outlen : Nat) (s : Sbuff)
    (len : Nat) (tbl : Nat → Bool) (hs : s.inv) :
    (fr_sbuff_strncpy_allowed out outlen s len tbl).1
        = ((trimmedWindow s outlen len).takeWhile tbl).length
    ∧ (fr_sbuff_strncpy_allowed out outlen s len tbl).2.2
        = { s with p := s.p + ((trimmedWindow s outlen len).takeWhile tbl).length }
    ∧ (∀ b ∈ (trimmedWindow s outlen len).takeWhile tbl, tbl b = true)
    ∧ (∀ b, (trimmedWindow s outlen len)[((trimmedWindow s outlen len).takeWhile tbl).length]?
          = some b → tbl b = false)
    ∧ (fr_sbuff_strncpy_allowed out outlen s len tbl).2.2.remaining
        = s.remaining.drop ((trimmedWindow s outlen len).takeWhile tbl).length
    ∧ (0 < outlen →
        ((fr_sbuff_strncpy_allowed out outlen s len tbl).2.1).take
            ((trimmedWindow s outlen len).takeWhile tbl).length
          = (trimmedWindow s outlen len).takeWhile tbl
        ∧ ((fr_sbuff_strncpy_allowed out outlen s len tbl).2.1)[((trimmedWindow s outlen len).takeWhile tbl).length]?
            = some 0)
    ∧ (fr_sbuff_strncpy_until out outlen s len tbl).1
        = ((trimmedWindow s outlen len).takeWhile (fun b => !tbl b)).length
    ∧ (fr_sbuff_strncpy_until out outlen s len tbl).2.2
        = { s with p := s.p + ((trimmedWindow s outlen len).takeWhile (fun b => !tbl b)).length }
    ∧ (∀ b ∈ (trimmedWindow s outlen len).takeWhile (fun b => !tbl b), tbl b = false)
    ∧ (∀ b, (trimmedWindow s outlen len)[((trimmedWindow s outlen len).takeWhile (fun b => !tbl b)).length]?
          = some b → tbl b = true)
    ∧ (fr_sbuff_strncpy_until out outlen s len tbl).2.2.remaining
        = s.remaining.drop ((trimmedWindow s outlen len).takeWhile (fun b => !tbl b)).length
    ∧ (0 < outlen →
        ((fr_sbuff_strncpy_until out outlen s len tbl).2.1).take
            ((trimmedWindow s outlen len).takeWhile (fun b => !tbl b)).length
          = (trimmedWindow s outlen len).takeWhile (fun b => !tbl b)
        ∧ ((fr_sbuff_strncpy_until out outlen s len tbl).2.1)[((trimmedWindow s outlen len).takeWhile (fun b => !tbl b)).length]?
            = some 0) := by
  obtain ⟨hsp, hpe, hel⟩ := hs
  by_cases h0 : outlen = 0
  · subst h0
    have ht0 : STRNCPY_TRIM_LEN len s (0 - 1) = 0 := by
      rw [trim_eq len s (0 - 1) hpe]
      omega
    have hw : trimmedWindow s 0 len = [] := by
      unfold trimmedWindow
      rw [ht0]
      simp
    simp only [fr_sbuff_strncpy_allowed, fr_sbuff_strncpy_until, if_true, hw]
    refine ⟨by simp, by simp, by simp, by simp, by simp, by omega,
      by simp, by simp, by simp, by simp, by simp, by omega⟩
  · simp only [fr_sbuff_strncpy_allowed, fr_sbuff_strncpy_until, if_neg h0, trimmedWindow]
    refine ⟨by trivial, by trivial, ?_, ?_, ?_, ?_, by trivial, by trivial, ?_, ?_, ?_, ?_⟩
    · intro b hb
      exact List.mem_takeWhile_imp hb
    · intro b hb
      exact takeWhile_stop tbl _ b hb
    · exact remaining_advance s _
    · intro _
      exact ⟨writeOut_take out _, writeOut_term out _⟩
    · intro b hb
      have := List.mem_takeWhile_imp hb
      simpa using this
    · intro b hb
      have := takeWhile_stop (fun b => !tbl b) _ b hb
      simpa using this
    · exact remaining_advance s _
    · intro _
      exact ⟨writeOut_take out _, writeOut_term out _⟩

/-- Witness for C7: the spec example — `copy_until` with stop set
containing only the comma over "foo,bar" copies "foo", returns 3, and
the cursor is left positioned at the comma. -/
theorem fr_sbuff_strncpy_filtered_spec_witness :
    (fr_sbuff_strncpy_until [8, 8, 8, 8, 8, 8, 8, 8] 8 sFooBar 7 (fun b => decide (b = 44))).1
        = ((trimmedWindow sFooBar 8 7).takeWhile (fun b => !(decide (b = 44) : Bool))).length
    ∧ (fr_sbuff_strncpy_until [8, 8, 8, 8, 8, 8, 8, 8] 8 sFooBar 7 (fun b => decide (b = 44))).2.2.remaining
        = sFooBar.remaining.drop
            ((trimmedWindow sFooBar 8 7).takeWhile (fun b => !(decide (b = 44) : Bool))).length :=
  ⟨(fr_sbuff_strncpy_filtered_spec [8, 8, 8, 8, 8, 8, 8, 8] 8 sFooBar 7
      (fun b => decide (b = 44)) (by decide)).2.2.2.2.2.2.1,
   (fr_sbuff_strncpy_filtered_spec [8, 8, 8, 8, 8, 8, 8, 8] 8 sFooBar 7
      (fun b => decide (b = 44)) (by decide)).2.2.2.2.2.2.2.2.2.2.1⟩

/-- Counterexample to claim C5 as stated: `copy_exact` with non-zero
`outlen = 1` on its insufficient-capacity return path writes nothing at
all into the output buffer — the buffer (a single non-zero byte) is
returned unchanged with no null terminator, although the claim asserts
every return path of all four copies writes one. -/
theorem strncpy_family_c5_cex :
    fr_sbuff_strncpy_exact [65] 1 sAbc 5 = (-5, [65], sAbc)
    ∧ (0 : Nat) ∉ ([65] : List Nat) := by
  constructor
  · decide
  · decide

/-- Claim C5 (amended): `copy_best_effort`, `copy_allowed` and
`copy_until` write a null terminator at the returned count (an index
below `outlen`) whenever `outlen > 0`, and write nothing when
`outlen = 0`; `copy_exact` writes the terminator (again within
capacity) exactly on its successful path and writes nothing on its
three failure paths. -/
theorem strncpy_family_termination (out : List Nat) (outlen : Nat) (s : Sbuff) (len : Nat)
    (tbl : Nat → Bool) (hs : s.inv) :
    (0 < outlen →
        ((fr_sbuff_strncpy out outlen s len).2.1)[(fr_sbuff_strncpy out outlen s len).1]?
            = some 0
        ∧ (fr_sbuff_strncpy out outlen s len).1 < outlen)
    ∧ (outlen = 0 → (fr_sbuff_strncpy out outlen s len).2.1 = out)
    ∧ (0 < outlen →
        ((fr_sbuff_strncpy_allowed out outlen s len tbl).2.1)[(fr_sbuff_strncpy_allowed out outlen s len tbl).1]?
            = some 0
        ∧ (fr_sbuff_strncpy_allowed out outlen s len tbl).1 < outlen)
    ∧ (outlen = 0 → (fr_sbuff_strncpy_allowed out outlen s len tbl).2.1 = out)
    ∧ (0 < outlen →
        ((fr_sbuff_strncpy_until out outlen s len tbl).2.1)[(fr_sbuff_strncpy_until out outlen s len tbl).1]?
            = some 0
        ∧ (fr_sbuff_strncpy_until out outlen s len tbl).1 < outlen)
    ∧ (outlen = 0 → (fr_sbuff_strncpy_until out outlen s len tbl).2.1 = out)
    ∧ (0 < outlen → effLen len s ≤ outlen - 1 → effLen len s ≤ s.ed - s.p →
        ((fr_sbuff_strncpy_exact out outlen s len).2.1)[effLen len s]? = some 0
        ∧ effLen len s < outlen)
    ∧ ((outlen = 0 ∨ outlen - 1 < effLen len s ∨ s.ed - s.p < effLen len s) →
        (fr_sbuff_strncpy_exact out outlen s len).2.1 = out) := by
  obtain ⟨hsp, hpe, hel⟩ := hs
  have htrim := trim_eq len s (outlen - 1) hpe
  have hle := trim_le_sub len s (outlen - 1) hpe
  have hbs : ((s.data.drop s.p).take (STRNCPY_TRIM_LEN len s (outlen - 1))).length
      = STRNCPY_TRIM_LEN len s (outlen - 1) := by
    simp
    omega
  have hwl : ((s.data.drop s.p).take (STRNCPY_TRIM_LEN len s (outlen - 1))).length
      ≤ STRNCPY_TRIM_LEN len s (outlen - 1) := by
    simp
  refine ⟨?_, ?_, ?_, ?_, ?_, ?_, ?_, ?_⟩
  · intro h0
    simp only [fr_sbuff_strncpy, if_neg (by omega : ¬ outlen = 0)]
    exact ⟨writeOut_term_len _ _ _ hbs, by omega⟩
  · intro h0
    simp only [fr_sbuff_strncpy, if_pos h0]
  · intro h0
    simp only [fr_sbuff_strncpy_allowed, if_neg (by omega : ¬ outlen = 0)]
    have ha := takeWhile_length_le tbl
      ((s.data.drop s.p).take (STRNCPY_TRIM_LEN len s (outlen - 1)))
    exact ⟨writeOut_term out _, by omega⟩
  · intro h0
    simp only [fr_sbuff_strncpy_allowed, if_pos h0]
  · intro h0
    simp only [fr_sbuff_strncpy_until, if_neg (by omega : ¬ outlen = 0)]
    have ha := takeWhile_length_le (fun b => !tbl b)
      ((s.data.drop s.p).take (STRNCPY_TRIM_LEN len s (outlen - 1)))
    exact ⟨writeOut_term out _, by omega⟩
  · intro h0
    simp only [fr_sbuff_strncpy_until, if_pos h0]
  · intro h0 h1 h2
    simp only [fr_sbuff_strncpy_exact, if_neg (by omega : ¬ outlen = 0)]
    rw [if_neg (by omega : ¬ effLen len s > outlen - 1),
      if_neg (by omega : ¬ s.ed < s.p + effLen len s)]
    have hbe : ((s.data.drop s.p).take (effLen len s)).length = effLen len s := by
      simp
      omega
    exact ⟨writeOut_term_len _ _ _ hbe, by omega⟩
  · intro hfail
    rcases hfail with h0 | h1 | h2
    · simp only [fr_sbuff_strncpy_exact, if_pos h0]
    · by_cases h0 : outlen = 0
      · simp only [fr_sbuff_strncpy_exact, if_pos h0]
      · simp only [fr_sbuff_strncpy_exact, if_neg h0]
        rw [if_pos (show effLen len s > outlen - 1 from h1)]
    · by_cases h0 : outlen = 0
      · simp only [fr_sbuff_strncpy_exact, if_pos h0]
      · simp only [fr_sbuff_strncpy_exact, if_neg h0]
        by_cases h1 : effLen len s > outlen - 1
        · rw [if_pos h1]
        · rw [if_neg h1, if_pos (by omega : s.ed < s.p + effLen len s)]

/-- Witness for the amended C5: the best-effort copy with `outlen = 4`
over remaining "hello" null-terminates at the returned index, below
capacity. -/
theorem strncpy_family_termination_witness :
    ((fr_sbuff_strncpy [7, 7, 7, 7] 4 sHello 5).2.1)[(fr_sbuff_strncpy [7, 7, 7, 7] 4 sHello 5).1]?
        = some 0
    ∧ (fr_sbuff_strncpy [7, 7, 7, 7] 4 sHello 5).1 < 4 :=
  (strncpy_family_termination [7, 7, 7, 7] 4 sHello 5 (fun _ => true) (by decide)).1 (by decide)

/-- Claim C4: for every numeric parse function and every input cursor
the caller-visible cursor position is unchanged on every path: the
digit span is staged through the best-effort copy applied to a
non-advancing copy of the cursor, and the outer function never advances
the real cursor by the consumed length. -/
theorem parse_functions_no_advance :
    (∀ errp s e, (fr_sbuff_parse_int8_t errp s e).sb = s)
    ∧ (∀ errp s e, (fr_sbuff_parse_int16_t errp s e).sb = s)
    ∧ (∀ errp s e, (fr_sbuff_parse_int32_t errp s e).sb = s)
    ∧ (∀ errp s e, (fr_sbuff_parse_int64_t errp s e).sb = s)
    ∧ (∀ errp s e, (fr_sbuff_parse_uint8_t errp s e).sb = s)
    ∧ (∀ errp s e, (fr_sbuff_parse_uint16_t errp s e).sb = s)
    ∧ (∀ errp s e, (fr_sbuff_parse_uint32_t errp s e).sb = s)
    ∧ (∀ errp s e, (fr_sbuff_parse_uint64_t errp s e).sb = s) :=
  ⟨fun errp s e => parseIntDef_sb _ _ _ errp s e,
   fun errp s e => parseIntDef_sb _ _ _ errp s e,
   fun errp s e => parseIntDef_sb _ _ _ errp s e,
   fun errp s e => parseIntDef_sb _ _ _ errp s e,
   fun errp s e => parseUintDef_sb _ _ errp s e,
   fun errp s e => parseUintDef_sb _ _ errp s e,
   fun errp s e => parseUintDef_sb _ _ errp s e,
   fun errp s e => parseUintDef_sb _ _ errp s e⟩

theorem parseIntDef_not_found (tmin tmax : Int) (bsz : Nat) (errp : Bool) (s : Sbuff)
    (e : Nat) (h : (strtollM (stagedBytes bsz s)).endOff = 0) :
    parseIntDef tmin tmax bsz errp s e
      = ⟨0, if errp then some .FR_SBUFF_PARSE_ERROR_NOT_FOUND else none, none, s⟩ := by
  simp [parseIntDef, h]

theorem parseUintDef_not_found (tmax bsz : Nat) (errp : Bool) (s : Sbuff)
    (e : Nat) (h : (strtoullM (stagedBytes bsz s)).endOff = 0) :
    parseUintDef tmax bsz errp s e
      = ⟨0, if errp then some .FR_SBUFF_PARSE_ERROR_NOT_FOUND else none, none, s⟩ := by
  simp [parseUintDef, h]

/-- Claim C9: for every numeric parse function, when the native parser
consumes zero characters from the staging buffer, the function reports
`NOT_FOUND` through the error output (exactly when the error pointer is
provided), leaves the output value untouched, returns 0, and leaves the
cursor position unchanged. -/
theorem parse_functions_not_found :
    (∀ errp s e, (strtollM (stagedBytes 8 s)).endOff = 0 →
        fr_sbuff_parse_int8_t errp s e
          = ⟨0, if errp then some .FR_SBUFF_PARSE_ERROR_NOT_FOUND else none, none, s⟩)
    ∧ (∀ errp s e, (strtollM (stagedBytes 10 s)).endOff = 0 →
        fr_sbuff_parse_int16_t errp s e
          = ⟨0, if errp then some .FR_SBUFF_PARSE_ERROR_NOT_FOUND else none, none, s⟩)
    ∧ (∀ errp s e, (strtollM (stagedBytes 17 s)).endOff = 0 →
        fr_sbuff_parse_int32_t errp s e
          = ⟨0, if errp then some .FR_SBUFF_PARSE_ERROR_NOT_FOUND else none, none, s⟩)
    ∧ (∀ errp s e, (strtollM (stagedBytes 27 s)).endOff = 0 →
        fr_sbuff_parse_int64_t errp s e
          = ⟨0, if errp then some .FR_SBUFF_PARSE_ERROR_NOT_FOUND else none, none, s⟩)
    ∧ (∀ errp s e, (strtoullM (stagedBytes 7 s)).endOff = 0 →
        fr_sbuff_parse_uint8_t errp s e
          = ⟨0, if errp then some .FR_SBUFF_PARSE_ERROR_NOT_FOUND else none, none, s⟩)
    ∧ (∀ errp s e, (strtoullM (stagedBytes 9 s)).endOff = 0 →
        fr_sbuff_parse_uint16_t errp s e
          = ⟨0, if errp then some .FR_SBUFF_PARSE_ERROR_NOT_FOUND else none, none, s⟩)
    ∧ (∀ errp s e, (strtoullM (stagedBytes 15 s)).endOff = 0 →
        fr_sbuff_parse_uint32_t errp s e
          = ⟨0, if errp then some .FR_SBUFF_PARSE_ERROR_NOT_FOUND else none, none, s⟩)
    ∧ (∀ errp s e, (strtoullM (stagedBytes 26 s)).endOff = 0 →
        fr_sbuff_parse_uint64_t errp s e
          = ⟨0, if errp then some .FR_SBUFF_PARSE_ERROR_NOT_FOUND else none, none, s⟩) :=
  ⟨fun errp s e h => parseIntDef_not_found _ _ _ errp s e h,
   fun errp s e h => parseIntDef_not_found _ _ _ errp s e h,
   fun errp s e h => parseIntDef_not_found _ _ _ errp s e h,
   fun errp s e h => parseIntDef_not_found _ _ _ errp s e h,
   fun errp s e h => parseUintDef_not_found _ _ errp s e h,
   fun errp s e h => parseUintDef_not_found _ _ errp s e h,
   fun errp s e h => parseUintDef_not_found _ _ errp s e h,
   fun errp s e h => parseUintDef_not_found _ _ errp s e h⟩

/-- Witness for C9: parsing "abc" with the signed 8-bit parser, with an
error pointer provided: no digits, so the result is return 0, error
`NOT_FOUND`, output untouched, cursor unchanged. -/
theorem parse_functions_not_found_witness :
    fr_sbuff_parse_int8_t true sAbc 0
      = ⟨0, if true then some .FR_SBUFF_PARSE_ERROR_NOT_FOUND else none, none, sAbc⟩ :=
  parse_functions_not_found.1 true sAbc 0 (by decide)

/-- Cursor over the nineteen digits of "9223372036854775808",
the value `INT64_MAX + 1`. -/
def sInt64SatInput : Sbuff :=
  ⟨[57, 50, 50, 51, 51, 55, 50, 48, 51, 54, 56, 53, 52, 55, 55, 53, 56, 48, 56], 0, 0, 19⟩

/-- Claim C3 (divergence witness): on "9223372036854775808"
(INT64_MAX + 1) with ambient errno 0 and an error pointer provided,
`strtoll` saturates at `LLONG_MAX` and raises `ERANGE`, yet the signed
64-bit parse reports the no-error sentinel `NOT_FOUND` and stores
`INT64_MAX`, because the code tests `errno == EINVAL` — a value
`strtoll` never produces for a range error — instead of `ERANGE`.  The
saturating parse is thus treated as a successful exact-boundary parse,
contradicting the documented contract that it be reported as
`IntegerOverflow`. -/
theorem parse_int64_saturation_not_overflow :
    fr_sbuff_parse_int64_t true sInt64SatInput 0
      = ⟨19, some .FR_SBUFF_PARSE_ERROR_NOT_FOUND, some (2 ^ 63 - 1), sInt64SatInput⟩
    ∧ (strtollM (stagedBytes 27 sInt64SatInput)).erange = true := by
  constructor
  · decide
  · decide

theorem strtoullM_minus_one (c : Nat) (t : List Nat) (hc : isdigitB c = false) :
    strtoullM (45 :: 49 :: c :: t) = ⟨2 ^ 64 - 1, 2, false⟩ := by
  unfold strtoullM
  have h1 : isspaceB 45 = false := by decide
  have h2 : isdigitB 49 = true := by decide
  simp [h1, h2, hc, digitsToNat, ULLONG_MAX]

theorem stagedBytes_eq (bsz : Nat) (s : Sbuff) (h1 : s.p ≤ s.ed) (h2 : s.ed ≤ s.data.length)
    (hb : 1 ≤ bsz) (hsz : bsz - 1 ≠ SIZE_MAX) :
    stagedBytes bsz s = s.remaining.take (bsz - 1) := by
  unfold stagedBytes stageBuff FR_SBUFF_NO_ADVANCE
  simp only [fr_sbuff_strncpy, if_neg (by omega : ¬ bsz = 0)]
  have htr := trim_eq (bsz - 1) s (bsz - 1) h1
  have heff : effLen (bsz - 1) s = bsz - 1 := by
    unfold effLen
    rw [if_neg hsz]
  rw [heff] at htr
  have hlt := trim_le_sub (bsz - 1) s (bsz - 1) h1
  have hbs : ((s.data.drop s.p).take (STRNCPY_TRIM_LEN (bsz - 1) s (bsz - 1))).length
      = STRNCPY_TRIM_LEN (bsz - 1) s (bsz - 1) := by
    simp
    omega
  rw [writeOut_take_len _ _ _ hbs]
  unfold Sbuff.remaining
  rw [List.take_take]
  congr 1
  omega

/-- Claim C10: the unsigned 64-bit parse over a cursor whose remaining
bytes start with "-1" followed by a non-digit (ambient errno not
`EINVAL`, error pointer provided): `strtoull` negates in unsigned
arithmetic, so the function returns consumed count 2, stores
`2^64 - 1`, and writes the no-error sentinel `NOT_FOUND` rather than
any overflow or underflow error. -/
theorem parse_uint64_minus_one (s : Sbuff) (c : Nat) (rest : List Nat) (e : Nat)
    (hs : s.inv) (hrem : s.remaining = 45 :: 49 :: c :: rest)
    (hc : isdigitB c = false) (he : e ≠ EINVAL) :
    fr_sbuff_parse_uint64_t true s e
      = ⟨2, some .FR_SBUFF_PARSE_ERROR_NOT_FOUND, some (2 ^ 64 - 1), s⟩ := by
  obtain ⟨hsp, hpe, hel⟩ := hs
  have hstage : stagedBytes 26 s = s.remaining.take 25 :=
    stagedBytes_eq 26 s hpe hel (by omega) (by decide)
  have htk : (45 :: 49 :: c :: rest : List Nat).take 25 = 45 :: 49 :: c :: rest.take 22 := rfl
  unfold fr_sbuff_parse_uint64_t parseUintDef
  rw [hstage, hrem, htk, strtoullM_minus_one c _ hc]
  simp [ULLONG_MAX]
  exact he

/-- Witness for C10 over the concrete buffer "-1,". -/
theorem parse_uint64_minus_one_witness :
    fr_sbuff_parse_uint64_t true ⟨[45, 49, 44], 0, 0, 3⟩ 0
      = ⟨2, some .FR_SBUFF_PARSE_ERROR_NOT_FOUND, some (2 ^ 64 - 1), ⟨[45, 49, 44], 0, 0, 3⟩⟩ :=
  parse_uint64_minus_one ⟨[45, 49, 44], 0, 0, 3⟩ 44 [] 0 (by decide) (by decide) (by decide)
    (by decide)
